import Mathlib

/-!
Verification of the tool-mediated incremental-editing engine of the
AI sandbox worker: the text editor command executor
(`executeEditorCommand`), the first-user-message cache segmentation of
the conversation state builder, and the tool-use orchestration loop.

The document buffer and all string-valued fields are modelled as
`List Char`.  JavaScript string primitives used by the source
(`String.prototype.split`, `String.prototype.replace` with its
dollar-substitution patterns, `String.prototype.match` with a global
regex built from an escaped literal, `Array.prototype.slice` with
negative-index wrapping, `Array.prototype.splice`) are embedded
faithfully below.  The two left-to-right scans that skip past a match
are written with an explicit fuel argument (always called with
`fuel = length of the scanned list`, which suffices because a match of
a non-empty separator consumes at least one character) so that every
definition is structurally recursive and computable by the kernel.
-/

/-- Characters of a string literal, the carrier used for buffers and messages. -/
def str (s : String) : List Char := s.toList

/-- Boolean test that `p` is a prefix of `l` (character by character). -/
def leadsWith : List Char → List Char → Bool
  | [], _ => true
  | _ :: _, [] => false
  | a :: as, b :: bs => a = b && leadsWith as bs

/-- Boolean substring test, modelling `String.prototype.includes`. -/
def containsSub (sub : List Char) : List Char → Bool
  | [] => leadsWith sub []
  | a :: rest => leadsWith sub (a :: rest) || containsSub sub rest

/-- Number of positions at which `pat` occurs in `l`, counting overlapping
occurrences.  This is the plain mathematical reading of the phrase
"the fragment occurs n times in the buffer" used by the specification;
it is compared below against `countOccurrences`, the count the source
actually computes. -/
def substringCount (pat : List Char) : List Char → Nat
  | [] => if leadsWith pat [] then 1 else 0
  | a :: rest => (if leadsWith pat (a :: rest) then 1 else 0) + substringCount pat rest

/-- Fueled scan for the occurrence count computed by the source:
a global regex scan counts non-overlapping matches left to right and
resumes after the end of each match (`lastIndex` advances by the match
length). -/
def countOccGo (pat : List Char) : Nat → List Char → Nat
  | _, [] => 0
  | 0, _ :: _ => 0
  | fuel + 1, a :: rest =>
    if leadsWith pat (a :: rest) then
      1 + countOccGo pat fuel (rest.drop (pat.length - 1))
    else
      countOccGo pat fuel rest

/-- The occurrence count computed by the source:
`(content.match(new RegExp(old_str.replace(escape, '\\$&'), 'g')) || []).length`.
The escape makes the regex a literal-substring matcher, so this is the
number of non-overlapping occurrences, scanning left to right.  Only
reached for a non-empty `old_str` (the executor guards `!old_str` first). -/
def countOccurrences (pat content : List Char) : Nat :=
  countOccGo pat content.length content

/-- Fueled scan for `String.prototype.split(sep)` with a non-empty literal
separator: each match contributes a part boundary and the scan resumes
after the separator. -/
def splitGo (sep : List Char) : Nat → List Char → List (List Char)
  | _, [] => [[]]
  | 0, a :: rest => [a :: rest]
  | fuel + 1, a :: rest =>
    if sep ≠ [] ∧ leadsWith sep (a :: rest) = true then
      [] :: splitGo sep fuel ((a :: rest).drop sep.length)
    else
      match splitGo sep fuel rest with
      | [] => [[a]]
      | part :: parts => (a :: part) :: parts

/-- `String.prototype.split(sep)` for a non-empty literal separator
(`"".split(sep)` is `[""]`).  The source only splits on the non-empty
separators `"\n"` and `"\n\nInstruction: "`. -/
def splitOnSub (sep content : List Char) : List (List Char) :=
  splitGo sep content.length content

/-- `Array.prototype.join('\n')`. -/
def joinNL (parts : List (List Char)) : List Char :=
  List.intercalate [Char.ofNat 10] parts

/-- The line array `content.split('\n')` computed at the top of
`executeEditorCommand`. -/
def linesOf (content : List Char) : List (List Char) :=
  splitOnSub [Char.ofNat 10] content

/-- The dollar sign, `$`. -/
def dollarChar : Char := Char.ofNat 36

/-- The ampersand, `&`. -/
def ampChar : Char := Char.ofNat 38

/-- The backquote character. -/
def backquoteChar : Char := Char.ofNat 96

/-- The single quote character. -/
def singleQuoteChar : Char := Char.ofNat 39

/-- First occurrence search used by `String.prototype.replace` with a string
pattern: returns the part before the match and the part after it. -/
def findFirst (pat : List Char) : List Char → Option (List Char × List Char)
  | [] => none
  | a :: rest =>
    if leadsWith pat (a :: rest) then
      some ([], (a :: rest).drop pat.length)
    else
      match findFirst pat rest with
      | some (p, s) => some (a :: p, s)
      | none => none

/-- `GetSubstitution` for `String.prototype.replace` with a string search
value (hence no capture groups): in the replacement template, the pairs
dollar-dollar, dollar-ampersand, dollar-backquote and dollar-quote expand
to a literal dollar, the matched fragment, the part before the match and
the part after the match, respectively; any other dollar is literal. -/
def substTemplate (matched before after : List Char) : List Char → List Char
  | [] => []
  | a :: rest =>
    if a = dollarChar then
      match rest with
      | [] => [dollarChar]
      | b :: t =>
        if b = dollarChar then dollarChar :: substTemplate matched before after t
        else if b = ampChar then matched ++ substTemplate matched before after t
        else if b = backquoteChar then before ++ substTemplate matched before after t
        else if b = singleQuoteChar then after ++ substTemplate matched before after t
        else dollarChar :: substTemplate matched before after (b :: t)
    else a :: substTemplate matched before after rest

/-- `content.replace(pat, rep)` with string arguments: replace the first
occurrence of `pat`, expanding dollar patterns in `rep`; if there is no
occurrence, return the content unchanged. -/
def jsReplace (content pat rep : List Char) : List Char :=
  match findFirst pat content with
  | none => content
  | some (p, s) => p ++ substTemplate pat p s rep ++ s

/-- `true` when the replacement template contains one of the four
dollar-substitution pairs that `String.prototype.replace` expands. -/
def hasDollarSubstPattern : List Char → Bool
  | [] => false
  | a :: rest =>
    match rest with
    | [] => false
    | b :: _ =>
      (a = dollarChar &&
        (b = dollarChar || b = ampChar || b = backquoteChar || b = singleQuoteChar))
      || hasDollarSubstPattern rest

/-- `Array.prototype.slice(s, e)`: negative indices count from the end of
the array, then both endpoints are clamped to `[0, length]`. -/
def jsSlice {α : Type} (l : List α) (s e : Int) : List α :=
  let n : Int := l.length
  let sn : Int := if s < 0 then max (n + s) 0 else min s n
  let en : Int := if e < 0 then max (n + e) 0 else min e n
  (l.take en.toNat).drop sn.toNat

/-- Decimal digits of a natural number, as interpolated by a JS template
literal. -/
def natStr (n : Nat) : List Char := str (toString n)

/-- Decimal digits of an integer, as interpolated by a JS template literal. -/
def intStr (n : Int) : List Char := str (toString n)

/-- The ad-hoc result objects returned by `executeEditorCommand`, gathered
into one record; a field the source leaves undefined is `none`. -/
structure ExecutionResult where
  success : Bool
  content : Option (List Char) := none
  line_count : Option Nat := none
  total_lines : Option Nat := none
  message : Option (List Char) := none
  error : Option (List Char) := none
  old_str_preview : Option (List Char) := none
  occurrences : Option Nat := none
deriving DecidableEq, Repr

/-- The tool input: the `command` discriminator of the wire schema becomes
the constructor, the variant-specific fields its arguments.  Fields the
model may omit are `Option`; `old_str` and `new_str` are plain lists
because the source coerces a missing string with `|| ''` or rejects the
empty string and `undefined` together with a falsy check. -/
inductive EditCommand where
  | view (view_range : Option (Int × Int))
  | str_replace (old_str : List Char) (new_str : List Char)
  | insert (insert_line : Option Int) (new_str : List Char)
  | delete_range (start_line : Option Int) (end_line : Option Int)
deriving DecidableEq, Repr

/-- The command executor (`executeEditorCommand` in the worker source):
splits the buffer into lines, then dispatches on the command.
Faithful points worth noting:
* `view` slices with `lines.slice(start - 1, end)`, JS semantics;
* `str_replace` counts matches with a global regex built from the escaped
  fragment (non-overlapping count) and replaces with
  `content.replace(old_str, new_str || '')`;
* `insert` rejects `insert_line` when it is missing, zero (falsy), negative,
  or greater than the line count;
* `delete_range` rejects a missing or zero (falsy) endpoint first, then
  range violations, and otherwise splices out the lines. -/
def executeEditorCommand (command : EditCommand) (content : List Char) : ExecutionResult :=
  let lines := linesOf content
  match command with
  | .view view_range =>
    match view_range with
    | some (start, stop) =>
      let viewLines := jsSlice lines (start - 1) stop
      { success := true
        content := some (joinNL viewLines)
        line_count := some viewLines.length
        total_lines := some lines.length }
    | none =>
      { success := true
        content := some content
        line_count := some lines.length
        total_lines := some lines.length }
  | .str_replace old_str new_str =>
    if old_str = [] then
      { success := false, error := some (str "old_str is required for str_replace") }
    else
      let occurrences := countOccurrences old_str content
      if occurrences = 0 then
        { success := false
          error := some (str "No match found. The old_str does not exist in the content.")
          old_str_preview := some (old_str.take 100) }
      else if 1 < occurrences then
        { success := false
          error := some (str "Multiple matches found (" ++ natStr occurrences ++
            str "). Please provide more context in old_str to make it unique.")
          occurrences := some occurrences }
      else
        { success := true
          content := some (jsReplace content old_str new_str)
          message := some (str "Successfully replaced 1 occurrence") }
  | .insert insert_line new_str =>
    match insert_line with
    | none =>
      { success := false
        error := some (str "Invalid insert_line: undefined. Must be between 1 and " ++
          natStr lines.length) }
    | some n =>
      if n = 0 ∨ n < 0 ∨ (lines.length : Int) < n then
        { success := false
          error := some (str "Invalid insert_line: " ++ intStr n ++
            str ". Must be between 1 and " ++ natStr lines.length) }
      else
        { success := true
          content := some (joinNL (lines.take n.toNat ++ [new_str] ++ lines.drop n.toNat))
          message := some (str "Inserted content after line " ++ intStr n) }
  | .delete_range start_line end_line =>
    match start_line, end_line with
    | some s, some e =>
      if s = 0 ∨ e = 0 then
        { success := false
          error := some (str "start_line and end_line are required for delete_range") }
      else if s < 1 ∨ (lines.length : Int) < e ∨ e < s then
        { success := false
          error := some (str "Invalid range: [" ++ intStr s ++ str ", " ++ intStr e ++
            str "]. Must be within 1-" ++ natStr lines.length ++ str " and start <= end") }
      else
        let deleted := (lines.drop (s.toNat - 1)).take (e.toNat - s.toNat + 1)
        { success := true
          content := some (joinNL (lines.take (s.toNat - 1) ++
            lines.drop (s.toNat - 1 + (e.toNat - s.toNat + 1))))
          message := some (str "Deleted " ++ natStr deleted.length ++ str " lines (" ++
            intStr s ++ str "-" ++ intStr e ++ str ")") }
    | _, _ =>
      { success := false
        error := some (str "start_line and end_line are required for delete_range") }

/-- The marker `"Current content:"` tested with `includes` by the builder. -/
def ccMarker : List Char := str "Current content:"

/-- The prefix `"Current content:\n"` removed from the first split part. -/
def ccMarkerNL : List Char := str "Current content:\n"

/-- The separator `"\n\nInstruction: "` the builder splits on. -/
def instrMarker : List Char := str "\n\nInstruction: "

/-- One typed content segment of a structured user message; `cacheable`
records the presence of `cache_control: { type: ephemeral }`. -/
structure MessageSegment where
  text : List Char
  cacheable : Bool
deriving DecidableEq, Repr

/-- One content block of a model reply: a tool invocation (with the block
id, the tool name and the parsed tool input) or plain text. -/
inductive ContentBlock where
  | tool_use (id : List Char) (name : List Char) (input : EditCommand)
  | text (s : List Char)
deriving DecidableEq, Repr

/-- One entry of the conversation transcript sent upstream.  The tool
result turn stores the executor result as a value (the source serializes
it with `JSON.stringify` into the message body). -/
inductive ConversationMessage where
  | userPlain (content : List Char)
  | userSegments (segments : List MessageSegment)
  | assistant (content : List ContentBlock)
  | toolResultMsg (tool_use_id : List Char) (result : ExecutionResult)
deriving DecidableEq, Repr

/-- The cache segmentation the conversation state builder applies to the
first user message when it is a plain string (worker source, message
normalization): if the string contains `"Current content:"` and splitting
on `"\n\nInstruction: "` yields exactly two parts, emit a cacheable
segment rebuilt as `"Current content:\n"` followed by the first part with
its first `"Current content:\n"` removed, plus an uncacheable segment
`"\n\nInstruction: "` followed by the second part; otherwise pass the
message through unchanged. -/
def normalizeFirstUserMessage (msgContent : List Char) : ConversationMessage :=
  if containsSub ccMarker msgContent = true then
    match splitOnSub instrMarker msgContent with
    | [p0, p1] =>
      ConversationMessage.userSegments
        [ { text := ccMarkerNL ++ jsReplace p0 ccMarkerNL [], cacheable := true },
          { text := instrMarker ++ p1, cacheable := false } ]
    | _ => ConversationMessage.userPlain msgContent
  else ConversationMessage.userPlain msgContent

/-- One scripted upstream response consumed by an iteration of the
tool-use loop: a parsed JSON reply (`stop_reason` plus content blocks),
a non-ok HTTP response with its error body, or a thrown exception
(network failure, body that fails to parse) caught by the loop handler. -/
inductive ModelReply where
  | ok (stop_reason : List Char) (content : List ContentBlock)
  | httpError (errorText : List Char)
  | throws (msg : List Char)
deriving DecidableEq, Repr

/-- One outbound SSE frame written by the loop, identified by its `type`
tag (or the error shape for the two error frames); `done` is the literal
sentinel frame `data: [DONE]`. -/
inductive StreamEvent where
  | tool_use (tool : List Char) (command : List Char)
  | content_update (content : List Char)
  | tool_result (success : Bool) (message : Option (List Char))
  | text (t : List Char)
  | api_error (details : List Char)
  | run_error (msg : List Char)
  | done
deriving DecidableEq, Repr

/-- How a run of the loop ended: a final (non-tool) reply, a non-ok
upstream response (error frame, break, sentinel), an exception (error
frame, then the writer is aborted without a sentinel), or the script ran
out while the loop still wanted another upstream call (the prefix of a
run that has not terminated yet). -/
inductive RunOutcome where
  | completed
  | upstreamFailed
  | aborted
  | stillLooping
deriving DecidableEq, Repr

/-- Everything observable about a run of the loop: the outbound frames in
order, how it ended, and the final working buffer and transcript. -/
structure RunResult where
  events : List StreamEvent
  outcome : RunOutcome
  finalContent : List Char
  transcript : List ConversationMessage
deriving DecidableEq, Repr

/-- `result.content.find(block => block.type === 'tool_use')`. -/
def findToolUse : List ContentBlock → Option (List Char × List Char × EditCommand)
  | [] => none
  | ContentBlock.tool_use id name input :: _ => some (id, name, input)
  | ContentBlock.text _ :: rest => findToolUse rest

/-- The `command` discriminator string of a tool input. -/
def commandName : EditCommand → List Char
  | .view _ => str "view"
  | .str_replace _ _ => str "str_replace"
  | .insert _ _ => str "insert"
  | .delete_range _ _ => str "delete_range"

/-- The final-reply path: filter the text blocks and write one `text`
frame per block whose text is non-empty (truthy). -/
def textEvents (blocks : List ContentBlock) : List StreamEvent :=
  blocks.filterMap fun b =>
    match b with
    | ContentBlock.text t => if t ≠ [] then some (StreamEvent.text t) else none
    | _ => none

/-- JS `a || b` on two optional strings: keep `a` when present and
non-empty (truthy), otherwise fall through to `b`. -/
def jsOrElse (a b : Option (List Char)) : Option (List Char) :=
  match a with
  | some x => if x = [] then b else some x
  | none => b

/-- The tool-use orchestration loop of the worker (`while (toolUseLoop)`),
driven by a script of upstream responses, one per iteration:
* a thrown exception reaches the catch handler, which writes one error
  frame and aborts the writer (no sentinel);
* a non-ok response writes one error frame with the first 200 characters
  of the body and breaks out of the loop, after which the sentinel is
  written;
* a reply with `stop_reason = 'tool_use'` that contains a tool_use block
  writes a `tool_use` frame, executes the command against the working
  buffer, on `success && content !== undefined` overwrites the buffer and
  writes a `content_update` frame, writes a `tool_result` frame with
  `message || error`, appends the assistant turn and a tool-result turn to
  the transcript, and continues;
* any other reply streams its non-empty text blocks and leaves the loop,
  after which the sentinel is written.
An exhausted script with the loop still live is reported as
`stillLooping`: it is the observable prefix of a run that has not
terminated. -/
def runLoop : List ModelReply → List Char → List ConversationMessage → RunResult
  | [], content, transcript =>
    { events := [], outcome := RunOutcome.stillLooping,
      finalContent := content, transcript := transcript }
  | ModelReply.throws msg :: _, content, transcript =>
    { events := [StreamEvent.run_error msg], outcome := RunOutcome.aborted,
      finalContent := content, transcript := transcript }
  | ModelReply.httpError errorText :: _, content, transcript =>
    { events := [StreamEvent.api_error (errorText.take 200), StreamEvent.done],
      outcome := RunOutcome.upstreamFailed,
      finalContent := content, transcript := transcript }
  | ModelReply.ok stop_reason blocks :: rest, content, transcript =>
    if stop_reason = str "tool_use" then
      match findToolUse blocks with
      | some (id, name, input) =>
        let toolResult := executeEditorCommand input content
        let updated := toolResult.success && toolResult.content.isSome
        let contentAfter := if updated then toolResult.content.getD content else content
        let updateEvents :=
          if updated then [StreamEvent.content_update contentAfter] else []
        let transcriptAfter := transcript ++
          [ConversationMessage.assistant blocks,
           ConversationMessage.toolResultMsg id toolResult]
        let tail := runLoop rest contentAfter transcriptAfter
        { events := StreamEvent.tool_use name (commandName input) ::
            (updateEvents ++
              StreamEvent.tool_result toolResult.success
                (jsOrElse toolResult.message toolResult.error) :: tail.events),
          outcome := tail.outcome,
          finalContent := tail.finalContent,
          transcript := tail.transcript }
      | none =>
        { events := textEvents blocks ++ [StreamEvent.done],
          outcome := RunOutcome.completed,
          finalContent := content, transcript := transcript }
    else
      { events := textEvents blocks ++ [StreamEvent.done],
        outcome := RunOutcome.completed,
        finalContent := content, transcript := transcript }

/-- Discriminates the `tool_use` frames in an event list. -/
def isToolUseFrame : StreamEvent → Bool
  | StreamEvent.tool_use _ _ => true
  | _ => false

/-- A scripted model reply that requests a `view` of the whole buffer:
`stop_reason = 'tool_use'` with one executable tool_use block. -/
def viewAllReply : ModelReply :=
  ModelReply.ok (str "tool_use")
    [ContentBlock.tool_use (str "toolu_1") (str "str_replace_editor")
      (EditCommand.view none)]

/-- Decidable test for the exact two-part shape named by the spec:
the message is `"Current content:\n" ++ X ++ "\n\nInstruction: " ++ Y`
for some `X` and `Y` (see `hasCurrentContentShape_iff`). -/
def hasCurrentContentShape (msg : List Char) : Bool :=
  leadsWith ccMarkerNL msg && containsSub instrMarker (msg.drop ccMarkerNL.length)

example : linesOf (str "a\nb") = [str "a", str "b"] := by decide

example : linesOf [] = [[]] := by decide

example : str "ab" = ['a', 'b'] := by decide

example : countOccurrences (str "aa") (str "aaa") = 1 := by decide

example : substringCount (str "aa") (str "aaa") = 2 := by decide

example :
    executeEditorCommand (.view none) (str "a\nb\nc") =
      { success := true, content := some (str "a\nb\nc"),
        line_count := some 3, total_lines := some 3 } := by decide

example :
    (executeEditorCommand (.view (some (2, 3))) (str "a\nb\nc")).content =
      some (str "b\nc") := by decide

example :
    (executeEditorCommand (.insert (some 2) (str "X")) (str "a\nb")).content =
      some (str "a\nb\nX") := by decide

example :
    (executeEditorCommand (.delete_range (some 1) (some 1)) (str "a\nb\nc")).content =
      some (str "b\nc") := by decide

example :
    (executeEditorCommand (.delete_range (some 1) (some 1)) (str "a\nb\nc")).message =
      some (str "Deleted 1 lines (1-1)") := by decide

example :
    (executeEditorCommand (.delete_range (some 2) (some 1)) (str "a\nb\nc")).success =
      false := by decide

example :
    (executeEditorCommand (.str_replace (str "a") (str "b")) (str "xay")).content =
      some (str "xby") := by decide

example :
    (executeEditorCommand (.str_replace (str "a") (str "$$")) (str "a")).content =
      some (str "$") := by decide

example :
    (executeEditorCommand (.str_replace (str "aa") (str "b")) (str "aaa")).content =
      some (str "ba") := by decide

example :
    (executeEditorCommand (.insert (some 0) (str "X")) (str "a\nb")).success =
      false := by decide

example :
    (runLoop [ModelReply.ok (str "end_turn") [ContentBlock.text (str "hi")]] [] []).events =
      [StreamEvent.text (str "hi"), StreamEvent.done] := by decide

example :
    (runLoop
      [ModelReply.ok (str "tool_use")
        [ContentBlock.tool_use (str "tu1") (str "str_replace_editor")
          (EditCommand.view (some (2, 3)))]]
      (str "a\nb\nc") []).finalContent = str "b\nc" := by decide

lemma leadsWith_append (p t : List Char) : leadsWith p (p ++ t) = true := by
  induction p with
  | nil => rfl
  | cons a as ih => simp [leadsWith, ih]

lemma leadsWith_elim {p l : List Char} (h : leadsWith p l = true) :
    l = p ++ l.drop p.length := by
  induction p generalizing l with
  | nil => simp
  | cons a as ih =>
    cases l with
    | nil => simp [leadsWith] at h
    | cons b bs =>
      simp only [leadsWith, Bool.and_eq_true, decide_eq_true_eq] at h
      obtain ⟨rfl, h2⟩ := h
      simpa using ih h2

lemma le_substringCount_cons (pat : List Char) (a : Char) (rest : List Char) :
    substringCount pat rest ≤ substringCount pat (a :: rest) := by
  simp only [substringCount]
  omega

lemma substringCount_drop_le (pat : List Char) (k : Nat) (l : List Char) :
    substringCount pat (l.drop k) ≤ substringCount pat l := by
  induction k generalizing l with
  | zero => simp
  | succ k ih =>
    cases l with
    | nil => simp
    | cons a rest =>
      calc substringCount pat ((a :: rest).drop (k + 1))
          = substringCount pat (rest.drop k) := by simp
        _ ≤ substringCount pat rest := ih rest
        _ ≤ substringCount pat (a :: rest) := le_substringCount_cons pat a rest

lemma substringCount_pos_of_decomp (pat p s : List Char) :
    1 ≤ substringCount pat (p ++ pat ++ s) := by
  induction p with
  | nil =>
    cases h : pat ++ s with
    | nil =>
      have hp : pat = [] := by
        cases pat with
        | nil => rfl
        | cons c cs => simp at h
      subst hp
      simp_all [substringCount, leadsWith]
    | cons c cs =>
      simp only [List.nil_append] at *
      rw [h, substringCount, ← h, leadsWith_append]
      simp
  | cons a p' ih =>
    calc 1 ≤ substringCount pat (p' ++ pat ++ s) := ih
      _ ≤ substringCount pat (a :: (p' ++ pat ++ s)) := le_substringCount_cons pat _ _
      _ = substringCount pat ((a :: p') ++ pat ++ s) := by simp

lemma substringCount_append_le (pat x b : List Char) :
    substringCount pat b ≤ substringCount pat (x ++ b) := by
  induction x with
  | nil => simp
  | cons a x' ih =>
    calc substringCount pat b ≤ substringCount pat (x' ++ b) := ih
      _ ≤ substringCount pat (a :: (x' ++ b)) := le_substringCount_cons pat _ _
      _ = substringCount pat ((a :: x') ++ b) := by simp

lemma substringCount_nil_pat (l : List Char) :
    substringCount [] l = l.length + 1 := by
  induction l with
  | nil => rfl
  | cons a rest ih =>
    simp [substringCount, leadsWith, ih]
    omega

lemma substringCount_unique {pat : List Char} :
    ∀ {p1 s1 p2 s2 : List Char},
      substringCount pat (p1 ++ pat ++ s1) = 1 →
      p1 ++ pat ++ s1 = p2 ++ pat ++ s2 →
      p1 = p2 ∧ s1 = s2 := by
  intro p1
  induction p1 with
  | nil =>
    intro s1 p2 s2 hc h
    cases p2 with
    | nil =>
      simp only [List.nil_append] at h ⊢
      exact ⟨trivial, List.append_cancel_left h⟩
    | cons b p2' =>
      exfalso
      cases hpat : pat with
      | nil =>
        subst hpat
        simp only [List.nil_append] at h hc
        rw [substringCount_nil_pat] at hc
        have : s1 = [] := by
          cases s1 with
          | nil => rfl
          | cons x xs => simp at hc
        subst this
        simp at h
      | cons c cs =>
        subst hpat
        simp only [List.nil_append, List.cons_append] at h hc
        have hlw : leadsWith (c :: cs) (c :: (cs ++ s1)) = true := by
          have := leadsWith_append (c :: cs) s1
          simpa using this
        rw [substringCount, if_pos hlw] at hc
        have htail : cs ++ s1 = p2' ++ (c :: cs) ++ s2 := by
          have := h
          simp only [List.cons.injEq] at this
          simpa using this.2
        have hge := substringCount_pos_of_decomp (c :: cs) p2' s2
        rw [← htail] at hge
        omega
  | cons a p1' ih =>
    intro s1 p2 s2 hc h
    cases p2 with
    | nil =>
      exfalso
      cases hpat : pat with
      | nil =>
        subst hpat
        simp only [List.append_nil, List.nil_append, List.cons_append] at h hc
        rw [substringCount_nil_pat] at hc
        simp at hc
      | cons c cs =>
        subst hpat
        simp only [List.nil_append, List.cons_append] at h hc
        have hlw : leadsWith (c :: cs) (a :: (p1' ++ c :: cs ++ s1)) = true := by
          rw [h]
          have := leadsWith_append (c :: cs) s2
          simpa using this
        rw [substringCount, if_pos hlw] at hc
        have hge := substringCount_pos_of_decomp (c :: cs) p1' s1
        simp only [List.cons_append] at hge ⊢
        omega
    | cons b p2' =>
      simp only [List.cons_append, List.cons.injEq] at h
      obtain ⟨rfl, htail⟩ := h
      have hc' : substringCount pat (a :: (p1' ++ pat ++ s1)) = 1 := by
        simpa using hc
      rw [substringCount] at hc'
      have hge := substringCount_pos_of_decomp pat p1' s1
      have hcnt : substringCount pat (p1' ++ pat ++ s1) = 1 := by
        by_cases hl : leadsWith pat (a :: (p1' ++ pat ++ s1)) = true
        · rw [if_pos hl] at hc'; omega
        · rw [if_neg hl] at hc'; omega
      obtain ⟨h1, h2⟩ := ih hcnt htail
      exact ⟨by rw [h1], h2⟩

lemma countOccGo_le_substringCount (pat : List Char) :
    ∀ (fuel : Nat) (l : List Char), countOccGo pat fuel l ≤ substringCount pat l := by
  intro fuel
  induction fuel with
  | zero => intro l; cases l <;> simp [countOccGo]
  | succ fuel ih =>
    intro l
    cases l with
    | nil => simp [countOccGo]
    | cons a rest =>
      rw [countOccGo]
      by_cases h : leadsWith pat (a :: rest) = true
      · rw [if_pos h]
        have h1 := ih (rest.drop (pat.length - 1))
        have h2 := substringCount_drop_le pat (pat.length - 1) rest
        have h3 : substringCount pat (a :: rest) = 1 + substringCount pat rest := by
          rw [substringCount, if_pos h]
        omega
      · rw [if_neg h]
        exact le_trans (ih rest) (le_substringCount_cons pat a rest)

lemma substringCount_eq_zero_of_countOccGo {pat : List Char} (hp : pat ≠ []) :
    ∀ (fuel : Nat) (l : List Char), l.length ≤ fuel →
      countOccGo pat fuel l = 0 → substringCount pat l = 0 := by
  intro fuel
  induction fuel with
  | zero =>
    intro l hl _
    have : l = [] := by cases l with | nil => rfl | cons a r => simp at hl
    subst this
    cases pat with
    | nil => simp at hp
    | cons c cs => simp [substringCount, leadsWith]
  | succ fuel ih =>
    intro l hl hc
    cases l with
    | nil =>
      cases pat with
      | nil => simp at hp
      | cons c cs => simp [substringCount, leadsWith]
    | cons a rest =>
      rw [countOccGo] at hc
      by_cases h : leadsWith pat (a :: rest) = true
      · rw [if_pos h] at hc; omega
      · rw [if_neg h] at hc
        have hrest := ih rest (by simp at hl; omega) hc
        rw [substringCount, if_neg h, hrest]

lemma countOccurrences_eq_one {pat l : List Char} (hp : pat ≠ [])
    (h : substringCount pat l = 1) : countOccurrences pat l = 1 := by
  have hle := countOccGo_le_substringCount pat l.length l
  have hpos : countOccGo pat l.length l ≠ 0 := by
    intro h0
    have := substringCount_eq_zero_of_countOccGo hp l.length l le_rfl h0
    omega
  unfold countOccurrences
  omega

lemma drop_append_len (x y : List Char) : (x ++ y).drop x.length = y := by
  induction x with
  | nil => simp
  | cons a as ih => simp [ih]

lemma findFirst_sound (pat : List Char) :
    ∀ (l p s : List Char), findFirst pat l = some (p, s) → l = p ++ pat ++ s := by
  intro l
  induction l with
  | nil => intro p s h; simp [findFirst] at h
  | cons a rest ih =>
    intro p s h
    rw [findFirst] at h
    by_cases hl : leadsWith pat (a :: rest) = true
    · rw [if_pos hl] at h
      simp only [Option.some.injEq, Prod.mk.injEq] at h
      obtain ⟨hp, hs⟩ := h
      subst hp
      subst hs
      simpa using leadsWith_elim hl
    · rw [if_neg hl] at h
      cases hf : findFirst pat rest with
      | none => rw [hf] at h; simp at h
      | some ps =>
        obtain ⟨p', s'⟩ := ps
        rw [hf] at h
        simp only [Option.some.injEq, Prod.mk.injEq] at h
        obtain ⟨hp, hs⟩ := h
        subst hp
        subst hs
        have hrest := ih p' s' hf
        simp [hrest]

lemma findFirst_of_leadsWith {pat l : List Char} (hp : pat ≠ [])
    (h : leadsWith pat l = true) :
    findFirst pat l = some ([], l.drop pat.length) := by
  cases l with
  | nil =>
    cases pat with
    | nil => simp at hp
    | cons c cs => simp [leadsWith] at h
  | cons a rest => rw [findFirst, if_pos h]

lemma findFirst_complete {pat : List Char} (hp : pat ≠ []) :
    ∀ (p s l : List Char), l = p ++ pat ++ s → (findFirst pat l).isSome := by
  intro p
  induction p with
  | nil =>
    intro s l h
    subst h
    simp only [List.nil_append]
    rw [findFirst_of_leadsWith hp (leadsWith_append pat s)]
    rfl
  | cons a p' ih =>
    intro s l h
    subst h
    have hshape : (a :: p') ++ pat ++ s = a :: (p' ++ pat ++ s) := by simp
    rw [hshape, findFirst]
    by_cases hl : leadsWith pat (a :: (p' ++ pat ++ s)) = true
    · rw [if_pos hl]; rfl
    · rw [if_neg hl]
      have hrec := ih s (p' ++ pat ++ s) rfl
      cases hf : findFirst pat (p' ++ pat ++ s) with
      | none => rw [hf] at hrec; simp at hrec
      | some ps =>
        obtain ⟨p'', s''⟩ := ps
        rfl

lemma substTemplate_id (m b a' : List Char) :
    ∀ rep, hasDollarSubstPattern rep = false → substTemplate m b a' rep = rep := by
  intro rep
  induction rep with
  | nil => intro _; rfl
  | cons x rest ih =>
    intro h
    cases rest with
    | nil =>
      rw [substTemplate]
      by_cases hx : x = dollarChar
      · rw [if_pos hx, hx]
      · rw [if_neg hx, substTemplate]
    | cons y t =>
      rw [hasDollarSubstPattern] at h
      simp only [Bool.or_eq_false_iff, Bool.and_eq_false_iff] at h
      obtain ⟨h1, h2⟩ := h
      have ht := ih h2
      rw [substTemplate]
      by_cases hx : x = dollarChar
      · rw [if_pos hx]
        have hy : ¬(y = dollarChar) ∧ ¬(y = ampChar) ∧ ¬(y = backquoteChar) ∧
            ¬(y = singleQuoteChar) := by
          rcases h1 with h1 | h1
          · exfalso
            rw [hx] at h1
            simp at h1
          · simp only [Bool.or_eq_false_iff, decide_eq_false_iff_not] at h1
            tauto
        rw [if_neg hy.1, if_neg hy.2.1, if_neg hy.2.2.1, if_neg hy.2.2.2, ht, hx]
      · rw [if_neg hx, ht]

lemma splitGo_ne_nil (sep : List Char) :
    ∀ (fuel : Nat) (l : List Char), splitGo sep fuel l ≠ [] := by
  intro fuel
  induction fuel with
  | zero => intro l; cases l <;> simp [splitGo]
  | succ fuel ih =>
    intro l
    cases l with
    | nil => simp [splitGo]
    | cons a rest =>
      rw [splitGo]
      by_cases h : sep ≠ [] ∧ leadsWith sep (a :: rest) = true
      · rw [if_pos h]; simp
      · rw [if_neg h]
        cases hs : splitGo sep fuel rest with
        | nil => exact absurd hs (ih rest)
        | cons part parts => simp

lemma splitGo_single_char (c : Char) :
    ∀ (fuel : Nat) (l : List Char), l.length ≤ fuel →
      (splitGo [c] fuel l).length = l.count c + 1 := by
  intro fuel
  induction fuel with
  | zero =>
    intro l hl
    have : l = [] := by cases l with | nil => rfl | cons a r => simp at hl
    subst this
    simp [splitGo]
  | succ fuel ih =>
    intro l hl
    cases l with
    | nil => simp [splitGo]
    | cons a rest =>
      have hrest : rest.length ≤ fuel := by simp at hl; omega
      rw [splitGo]
      by_cases hc : c = a
      · have hcond : ([c] ≠ [] ∧ leadsWith [c] (a :: rest) = true) := by
          subst hc
          simp [leadsWith]
        rw [if_pos hcond]
        have hdrop : (a :: rest).drop ([c] : List Char).length = rest := by simp
        rw [hdrop]
        rw [List.length_cons, ih rest hrest]
        subst hc
        rw [List.count_cons_self]
      · have hcond : ¬([c] ≠ [] ∧ leadsWith [c] (a :: rest) = true) := by
          simp [leadsWith]
          intro h
          exact absurd h hc
        rw [if_neg hcond]
        cases hs : splitGo [c] fuel rest with
        | nil => exact absurd hs (splitGo_ne_nil [c] fuel rest)
        | cons part parts =>
          have hlen := ih rest hrest
          rw [hs] at hlen
          simp only [List.length_cons] at hlen ⊢
          rw [List.count_cons_of_ne hc rest]
          omega

lemma splitGo_no_occ {sep : List Char} :
    ∀ (fuel : Nat) (l : List Char), substringCount sep l = 0 → l.length ≤ fuel →
      splitGo sep fuel l = [l] := by
  intro fuel
  induction fuel with
  | zero =>
    intro l _ hl
    have : l = [] := by cases l with | nil => rfl | cons a r => simp at hl
    subst this
    rfl
  | succ fuel ih =>
    intro l hc hl
    cases l with
    | nil => rfl
    | cons a rest =>
      rw [substringCount] at hc
      have hlw : ¬leadsWith sep (a :: rest) = true := by
        intro h
        rw [if_pos h] at hc
        omega
      have hrest : substringCount sep rest = 0 := by
        rw [if_neg hlw] at hc
        omega
      rw [splitGo, if_neg (by intro h; exact hlw h.2)]
      rw [ih rest hrest (by simp at hl; omega)]

lemma substringCount_sep_prepend {sep : List Char} (hp : sep ≠ []) (B : List Char) :
    1 + substringCount sep B ≤ substringCount sep (sep ++ B) := by
  cases sep with
  | nil => simp at hp
  | cons c cs =>
    have hshape : (c :: cs) ++ B = c :: (cs ++ B) := by simp
    rw [hshape, substringCount]
    have hlw : leadsWith (c :: cs) (c :: (cs ++ B)) = true := by
      have := leadsWith_append (c :: cs) B
      simpa using this
    rw [if_pos hlw]
    have := substringCount_append_le (c :: cs) cs B
    omega

lemma splitGo_single_sep {sep : List Char} (hp : sep ≠ []) :
    ∀ (A : List Char) (fuel : Nat) (B : List Char),
      substringCount sep (A ++ sep ++ B) = 1 →
      (A ++ sep ++ B).length ≤ fuel →
      splitGo sep fuel (A ++ sep ++ B) = [A, B] := by
  intro A
  induction A with
  | nil =>
    intro fuel B hc hl
    simp only [List.nil_append] at hc hl ⊢
    have hB : substringCount sep B = 0 := by
      have := substringCount_sep_prepend hp B
      omega
    cases sep with
    | nil => simp at hp
    | cons c cs =>
      have hshape : (c :: cs) ++ B = c :: (cs ++ B) := by simp
      cases fuel with
      | zero => rw [hshape] at hl; simp at hl
      | succ fuel =>
        rw [hshape, splitGo]
        have hlw : leadsWith (c :: cs) (c :: (cs ++ B)) = true := by
          have := leadsWith_append (c :: cs) B
          simpa using this
        rw [if_pos ⟨hp, hlw⟩]
        have hdrop : (c :: (cs ++ B)).drop (c :: cs).length = B := by
          rw [← hshape]
          exact drop_append_len (c :: cs) B
        rw [hdrop]
        rw [splitGo_no_occ fuel B hB (by rw [hshape] at hl; simp at hl; omega)]
  | cons a A' ih =>
    intro fuel B hc hl
    have hshape : (a :: A') ++ sep ++ B = a :: (A' ++ sep ++ B) := by simp
    rw [hshape] at hc hl ⊢
    cases fuel with
    | zero => simp at hl
    | succ fuel =>
      rw [splitGo]
      have hlw : ¬leadsWith sep (a :: (A' ++ sep ++ B)) = true := by
        intro h
        have hdec := leadsWith_elim h
        have huniq := @substringCount_unique sep (a :: A') B []
          ((a :: (A' ++ sep ++ B)).drop sep.length)
        have h1 : (a :: A') ++ sep ++ B = [] ++ sep ++ (a :: (A' ++ sep ++ B)).drop sep.length := by
          simpa [hshape] using hdec
        have := huniq (by rw [hshape]; exact hc) h1
        simp at this
      rw [if_neg (by intro h; exact hlw h.2)]
      have hc' : substringCount sep (A' ++ sep ++ B) = 1 := by
        rw [substringCount, if_neg hlw] at hc
        omega
      rw [ih fuel B hc' (by simp only [List.length_cons] at hl; omega)]

lemma containsSub_iff (sub l : List Char) :
    containsSub sub l = true ↔ ∃ p s, l = p ++ sub ++ s := by
  induction l with
  | nil =>
    rw [containsSub]
    constructor
    · intro h
      cases sub with
      | nil => exact ⟨[], [], rfl⟩
      | cons c cs => simp [leadsWith] at h
    · rintro ⟨p, s, hps⟩
      have hp : p = [] ∧ sub = [] ∧ s = [] := by
        constructor
        · cases p with
          | nil => rfl
          | cons x xs => simp at hps
        constructor
        · cases sub with
          | nil => rfl
          | cons x xs =>
            cases p <;> simp at hps
        · cases s with
          | nil => rfl
          | cons x xs =>
            rcases List.append_eq_nil.mp hps.symm with ⟨h1, h2⟩
            exact absurd h2 (by simp)
      rw [hp.2.1]
      rfl
  | cons a rest ih =>
    rw [containsSub, Bool.or_eq_true]
    constructor
    · intro h
      rcases h with h | h
      · refine ⟨[], (a :: rest).drop sub.length, ?_⟩
        simpa using leadsWith_elim h
      · rcases ih.mp h with ⟨p, s, hps⟩
        exact ⟨a :: p, s, by simp [hps]⟩
    · rintro ⟨p, s, hps⟩
      cases p with
      | nil =>
        left
        simp only [List.nil_append] at hps
        rw [hps]
        exact leadsWith_append sub s
      | cons x xs =>
        right
        apply ih.mpr
        refine ⟨xs, s, ?_⟩
        have hcons : a :: rest = x :: (xs ++ sub ++ s) := by simpa using hps
        injection hcons with h1 h2

lemma hasCurrentContentShape_iff (msg : List Char) :
    hasCurrentContentShape msg = true ↔
      ∃ X Y, msg = ccMarkerNL ++ X ++ instrMarker ++ Y := by
  rw [hasCurrentContentShape, Bool.and_eq_true]
  constructor
  · rintro ⟨h1, h2⟩
    have hdec := leadsWith_elim h1
    rcases (containsSub_iff _ _).mp h2 with ⟨p, s, hps⟩
    refine ⟨p, s, ?_⟩
    calc msg = ccMarkerNL ++ msg.drop ccMarkerNL.length := hdec
      _ = ccMarkerNL ++ (p ++ instrMarker ++ s) := by rw [hps]
      _ = ccMarkerNL ++ p ++ instrMarker ++ s := by simp
  · rintro ⟨X, Y, rfl⟩
    have hassoc : ccMarkerNL ++ X ++ instrMarker ++ Y =
        ccMarkerNL ++ (X ++ instrMarker ++ Y) := by simp
    constructor
    · rw [hassoc]
      exact leadsWith_append _ _
    · rw [hassoc, drop_append_len]
      exact (containsSub_iff _ _).mpr ⟨X, Y, rfl⟩

lemma jsReplace_unique {content pat rep p s : List Char} (hp : pat ≠ [])
    (hone : substringCount pat content = 1) (hdec : content = p ++ pat ++ s)
    (hrep : hasDollarSubstPattern rep = false) :
    jsReplace content pat rep = p ++ rep ++ s := by
  have hsome := findFirst_complete hp p s content hdec
  rw [jsReplace]
  cases hf : findFirst pat content with
  | none => rw [hf] at hsome; simp at hsome
  | some ps =>
    obtain ⟨p0, s0⟩ := ps
    have hdec0 := findFirst_sound pat content p0 s0 hf
    have huniq := @substringCount_unique pat p0 s0 p s
      (by rw [← hdec0]; exact hone) (by rw [← hdec0, ← hdec])
    obtain ⟨rfl, rfl⟩ := huniq
    show p0 ++ substTemplate pat p0 s0 rep ++ s0 = p0 ++ rep ++ s0
    rw [substTemplate_id _ _ _ rep hrep]

/-- Claim C1, corrected.  For a non-empty search fragment that occurs at
exactly one position of the buffer and a replacement text free of the
JavaScript dollar-substitution pairs, `str_replace` succeeds and returns
the buffer with that single occurrence replaced by the replacement text,
no other character altered, and the one-line success message.  (The
dollar-pattern proviso is forced by `claim_C1_counterexample`:
`String.prototype.replace` expands dollar patterns in the replacement.) -/
theorem claim_C1_replace_unique_occurrence
    (content pat rep p s : List Char)
    (hpat : pat ≠ [])
    (hone : substringCount pat content = 1)
    (hrep : hasDollarSubstPattern rep = false)
    (hdec : content = p ++ pat ++ s) :
    executeEditorCommand (EditCommand.str_replace pat rep) content =
      { success := true
        content := some (p ++ rep ++ s)
        message := some (str "Successfully replaced 1 occurrence") } := by
  have hocc : countOccurrences pat content = 1 := countOccurrences_eq_one hpat hone
  rw [executeEditorCommand]
  simp only [if_neg hpat, hocc]
  norm_num
  have hrw := jsReplace_unique hpat hone hdec hrep
  simpa [List.append_assoc] using hrw

/-- Witness for C1 at a concrete input: replacing the unique `"a"` in
`"xay"` with `"b"` gives `"xby"`. -/
theorem claim_C1_witness :
    executeEditorCommand (EditCommand.str_replace (str "a") (str "b")) (str "xay") =
      { success := true
        content := some (str "x" ++ str "b" ++ str "y")
        message := some (str "Successfully replaced 1 occurrence") } :=
  claim_C1_replace_unique_occurrence (str "xay") (str "a") (str "b") (str "x") (str "y")
    (by decide) (by decide) (by decide) (by decide)

/-- Claim C1 as stated is false: `"a"` occurs exactly once in `"a"`, and
the replacement text is `"$$"`, but the result is `"$"`, not the buffer
with the occurrence replaced by the replacement text `"$$"` —
`String.prototype.replace` collapses `$$` to a single dollar. -/
theorem claim_C1_counterexample :
    substringCount (str "a") (str "a") = 1 ∧
    (executeEditorCommand (EditCommand.str_replace (str "a") (str "$$")) (str "a")).content =
      some (str "$") ∧
    (executeEditorCommand (EditCommand.str_replace (str "a") (str "$$")) (str "a")).content ≠
      some (str "$$") := by decide

/-- Claim C5, corrected.  The executor counts non-overlapping occurrences
(global regex scan), not all positions.  When that count is zero the
command fails with the fixed no-match error and the result carries the
first 100 characters of the fragment in its preview field; when it is two
or more the command fails reporting that count; in both cases the result
carries no new buffer value, so the buffer is left unchanged.
(The restriction to the non-overlapping count is forced by
`claim_C5_counterexample`.) -/
theorem claim_C5_replace_nonunique (content pat rep : List Char) (hpat : pat ≠ []) :
    (countOccurrences pat content = 0 →
      executeEditorCommand (EditCommand.str_replace pat rep) content =
        { success := false
          error := some (str "No match found. The old_str does not exist in the content.")
          old_str_preview := some (pat.take 100) }) ∧
    (2 ≤ countOccurrences pat content →
      executeEditorCommand (EditCommand.str_replace pat rep) content =
        { success := false
          error := some (str "Multiple matches found (" ++
            natStr (countOccurrences pat content) ++
            str "). Please provide more context in old_str to make it unique.")
          occurrences := some (countOccurrences pat content) }) := by
  constructor
  · intro h0
    rw [executeEditorCommand]
    simp only [if_neg hpat, h0]
    norm_num
  · intro h2
    rw [executeEditorCommand]
    simp only [if_neg hpat]
    rw [if_neg (by omega), if_pos (by omega)]

/-- Witness for C5 at concrete inputs: `"zz"` does not occur in `"abc"`;
`"ab"` occurs twice (non-overlapping) in `"abab"`. -/
theorem claim_C5_witness :
    executeEditorCommand (EditCommand.str_replace (str "zz") (str "w")) (str "abc") =
      { success := false
        error := some (str "No match found. The old_str does not exist in the content.")
        old_str_preview := some (str "zz") } ∧
    executeEditorCommand (EditCommand.str_replace (str "ab") (str "x")) (str "abab") =
      { success := false
        error := some (str "Multiple matches found (2). Please provide more context in old_str to make it unique.")
        occurrences := some 2 } :=
  ⟨(claim_C5_replace_nonunique (str "abc") (str "zz") (str "w") (by decide)).1 (by decide),
   (claim_C5_replace_nonunique (str "abab") (str "ab") (str "x") (by decide)).2 (by decide)⟩

/-- Claim C5 as stated is false: `"aa"` occurs at two positions of
`"aaa"` (overlapping), yet the command succeeds and changes the buffer to
`"ba"` instead of reporting an error with the occurrence count — the
source counts non-overlapping matches only. -/
theorem claim_C5_counterexample :
    substringCount (str "aa") (str "aaa") = 2 ∧
    (executeEditorCommand (EditCommand.str_replace (str "aa") (str "b")) (str "aaa")).success =
      true ∧
    (executeEditorCommand (EditCommand.str_replace (str "aa") (str "b")) (str "aaa")).content =
      some (str "ba") := by decide

/-- Claim C4, corrected.  `insert` succeeds exactly for anchors
`1 ≤ n ≤ total_lines`: the falsy check `!insert_line` also rejects the
anchor `0`, which the claim said inserts at the very top (forced by
`claim_C4_counterexample`).  For a valid anchor the text is spliced in as
a new line immediately after line `n`; any other anchor yields the range
error naming the bounds `1..total_lines`. -/
theorem claim_C4_insert (content new_str : List Char) (n : Int) :
    ((executeEditorCommand (EditCommand.insert (some n) new_str) content).success = true ↔
      1 ≤ n ∧ n ≤ ((linesOf content).length : Int)) ∧
    (1 ≤ n → n ≤ ((linesOf content).length : Int) →
      executeEditorCommand (EditCommand.insert (some n) new_str) content =
        { success := true
          content := some (joinNL ((linesOf content).take n.toNat ++ [new_str] ++
            (linesOf content).drop n.toNat))
          message := some (str "Inserted content after line " ++ intStr n) }) ∧
    (¬(1 ≤ n ∧ n ≤ ((linesOf content).length : Int)) →
      executeEditorCommand (EditCommand.insert (some n) new_str) content =
        { success := false
          error := some (str "Invalid insert_line: " ++ intStr n ++
            str ". Must be between 1 and " ++ natStr (linesOf content).length) }) := by
  refine ⟨?_, ?_, ?_⟩
  · rw [executeEditorCommand]
    by_cases h : n = 0 ∨ n < 0 ∨ ((linesOf content).length : Int) < n
    · rw [if_pos h]
      simp only [show (false = true) ↔ False by simp]
      constructor
      · intro hf; exact hf.elim
      · intro hc; omega
    · rw [if_neg h]
      simp only [show (true = true) ↔ True by simp]
      constructor
      · intro _; omega
      · intro _; trivial
  · intro h1 h2
    rw [executeEditorCommand]
    rw [if_neg (by omega)]
  · intro h
    rw [executeEditorCommand]
    rw [if_pos (by omega)]

/-- Witness for C4 at concrete inputs: inserting `"X"` after line 1 of
`"a\nb"` gives `"a\nX\nb"`; anchor 5 on the 2-line buffer is rejected
with the error naming the bounds 1..2. -/
theorem claim_C4_witness :
    executeEditorCommand (EditCommand.insert (some 1) (str "X")) (str "a\nb") =
      { success := true
        content := some (str "a\nX\nb")
        message := some (str "Inserted content after line 1") } ∧
    executeEditorCommand (EditCommand.insert (some 5) (str "X")) (str "a\nb") =
      { success := false
        error := some (str "Invalid insert_line: 5. Must be between 1 and 2") } :=
  ⟨(claim_C4_insert (str "a\nb") (str "X") 1).2.1 (by decide) (by decide),
   (claim_C4_insert (str "a\nb") (str "X") 5).2.2 (by decide)⟩

/-- Claim C4 as stated is false at anchor 0: the claim says
`Insert(after=0, "X")` on `"a\nb"` succeeds and yields `"X\na\nb"`, but
the falsy check `!insert_line` rejects 0 with the range error. -/
theorem claim_C4_counterexample :
    (executeEditorCommand (EditCommand.insert (some 0) (str "X")) (str "a\nb")).success =
      false ∧
    (executeEditorCommand (EditCommand.insert (some 0) (str "X")) (str "a\nb")).error =
      some (str "Invalid insert_line: 0. Must be between 1 and 2") ∧
    (executeEditorCommand (EditCommand.insert (some 0) (str "X")) (str "a\nb")).content ≠
      some (str "X\na\nb") := by decide

/-- Claim C6, corrected.  `view` with no range returns the whole content
with `line_count = total_lines`; with a range it never fails; for
`1 ≤ start ≤ end ≤ total_lines` it returns the inclusive 1-indexed slice
with `line_count = end - start + 1`; and an `end` beyond `total_lines`
clamps to `total_lines`.  (The claim said every out-of-range index
clamps; `claim_C6_counterexample` shows a `start` of 0 instead wraps
around to the last line, because `lines.slice(start - 1, end)` treats the
negative index as counting from the end of the array.) -/
theorem claim_C6_view (content : List Char) (s e : Int) :
    (executeEditorCommand (EditCommand.view none) content =
      { success := true
        content := some content
        line_count := some (linesOf content).length
        total_lines := some (linesOf content).length }) ∧
    ((executeEditorCommand (EditCommand.view (some (s, e))) content).success = true) ∧
    (1 ≤ s → s ≤ e → e ≤ ((linesOf content).length : Int) →
      executeEditorCommand (EditCommand.view (some (s, e))) content =
        { success := true
          content := some (joinNL (((linesOf content).take e.toNat).drop (s.toNat - 1)))
          line_count := some ((e - s + 1).toNat)
          total_lines := some (linesOf content).length }) ∧
    (((linesOf content).length : Int) ≤ e →
      executeEditorCommand (EditCommand.view (some (s, e))) content =
        executeEditorCommand
          (EditCommand.view (some (s, ((linesOf content).length : Int)))) content) := by
  refine ⟨by rw [executeEditorCommand], by rw [executeEditorCommand], ?_, ?_⟩
  · intro h1 h2 h3
    rw [executeEditorCommand]
    have hslice : jsSlice (linesOf content) (s - 1) e =
        ((linesOf content).take e.toNat).drop (s.toNat - 1) := by
      rw [jsSlice]
      have hs : ¬(s - 1 < 0) := by omega
      have he : ¬(e < 0) := by omega
      rw [if_neg hs, if_neg he]
      have hmins : min (s - 1) ((linesOf content).length : Int) = s - 1 := by omega
      have hmine : min e ((linesOf content).length : Int) = e := by omega
      rw [hmins, hmine]
      congr 1
      omega
    rw [hslice]
    have hlen : (((linesOf content).take e.toNat).drop (s.toNat - 1)).length =
        (e - s + 1).toNat := by
      rw [List.length_drop, List.length_take]
      omega
    rw [hlen]
  · intro h
    rw [executeEditorCommand, executeEditorCommand]
    have hslice : jsSlice (linesOf content) (s - 1) e =
        jsSlice (linesOf content) (s - 1) ((linesOf content).length : Int) := by
      rw [jsSlice, jsSlice]
      have he : ¬(e < 0) := by omega
      have hn : ¬(((linesOf content).length : Int) < 0) := by omega
      rw [if_neg he, if_neg hn]
      have h1 : min e ((linesOf content).length : Int) = ((linesOf content).length : Int) := by
        omega
      have h2 : min ((linesOf content).length : Int) ((linesOf content).length : Int) =
          ((linesOf content).length : Int) := by omega
      rw [h1, h2]
    rw [hslice]

/-- Witness for C6 at concrete inputs: `View([2,3])` on `"a\nb\nc"`
returns `"b\nc"` with `line_count = 2`, and `View([1,5])` on the same
3-line buffer behaves exactly like `View([1,3])` (the end index clamps). -/
theorem claim_C6_witness :
    executeEditorCommand (EditCommand.view (some (2, 3))) (str "a\nb\nc") =
      { success := true
        content := some (str "b\nc")
        line_count := some 2
        total_lines := some 3 } ∧
    executeEditorCommand (EditCommand.view (some (1, 5))) (str "a\nb\nc") =
      executeEditorCommand (EditCommand.view (some (1, 3))) (str "a\nb\nc") :=
  ⟨(claim_C6_view (str "a\nb\nc") 2 3).2.2.1 (by decide) (by decide) (by decide),
   (claim_C6_view (str "a\nb\nc") 1 5).2.2.2 (by decide)⟩

/-- Claim C6 as stated is false for a `start` of 0: the claim says an
out-of-range start clamps to the available lines (so `View([0,3])` on
`"a\nb\nc"` would return all three lines), but `slice(-1, 3)` wraps to
the last line and returns only `"c"` with `line_count = 1`. -/
theorem claim_C6_counterexample :
    (executeEditorCommand (EditCommand.view (some (0, 3))) (str "a\nb\nc")).content =
      some (str "c") ∧
    (executeEditorCommand (EditCommand.view (some (0, 3))) (str "a\nb\nc")).line_count =
      some 1 ∧
    (executeEditorCommand (EditCommand.view (some (0, 3))) (str "a\nb\nc")).content ≠
      some (str "a\nb\nc") := by decide

/-- Claim C10, confirmed.  The line count used by the executor is the
number of newline characters plus one, so `total_lines` is always at
least 1; `view` on the empty buffer reports `total_lines = 1`;
`DeleteRange(1,1)` on the empty buffer is in range; and the anchors
accepted by `insert` and `delete_range` on the empty buffer are exactly
those accepted on a one-line buffer. -/
theorem claim_C10_line_count (content : List Char) :
    (linesOf content).length = content.count (Char.ofNat 10) + 1 ∧
    1 ≤ (linesOf content).length ∧
    (executeEditorCommand (EditCommand.view none) []).total_lines = some 1 ∧
    (executeEditorCommand (EditCommand.delete_range (some 1) (some 1)) []).success = true ∧
    (∀ (n : Int) (text : List Char),
      (executeEditorCommand (EditCommand.insert (some n) text) []).success =
        (executeEditorCommand (EditCommand.insert (some n) text) (str "y")).success) ∧
    (∀ s e : Int,
      (executeEditorCommand (EditCommand.delete_range (some s) (some e)) []).success =
        (executeEditorCommand (EditCommand.delete_range (some s) (some e)) (str "y")).success) := by
  have hcount : (linesOf content).length = content.count (Char.ofNat 10) + 1 :=
    splitGo_single_char (Char.ofNat 10) content.length content le_rfl
  have hempty : linesOf ([] : List Char) = [[]] := by decide
  have hone : linesOf (str "y") = [['y']] := by decide
  refine ⟨hcount, by omega, by decide, by decide, ?_, ?_⟩
  · intro n text
    rw [executeEditorCommand, executeEditorCommand]
    rw [hempty, hone]
    by_cases h : n = 0 ∨ n < 0 ∨ (([[]] : List (List Char)).length : Int) < n
    · rw [if_pos h, if_pos (by simpa using h)]
    · rw [if_neg h, if_neg (by simpa using h)]
  · intro s e
    rw [executeEditorCommand, executeEditorCommand]
    rw [hempty, hone]
    by_cases h0 : s = 0 ∨ e = 0
    · rw [if_pos h0, if_pos h0]
    · rw [if_neg h0, if_neg h0]
      by_cases h1 : s < 1 ∨ (([[]] : List (List Char)).length : Int) < e ∨ e < s
      · rw [if_pos h1, if_pos (by simpa using h1)]
      · rw [if_neg h1, if_neg (by simpa using h1)]

/-- Claim C2, refuting theorem (code bug).  The tool-use loop has no
iteration ceiling: for every `n`, a script of `n` consecutive
tool-requesting replies leaves the loop still iterating after `n` full
tool iterations (one `tool_use` frame each), and no `Failed`-style
transition ever occurs — so no configured bound on the iteration count
exists in the code. -/
theorem claim_C2_no_iteration_ceiling (n : Nat) (content : List Char)
    (transcript : List ConversationMessage) :
    (runLoop (List.replicate n viewAllReply) content transcript).outcome =
      RunOutcome.stillLooping ∧
    (runLoop (List.replicate n viewAllReply) content transcript).events.countP
      isToolUseFrame = n := by
  induction n generalizing transcript with
  | zero => exact ⟨rfl, rfl⟩
  | succ n ih =>
    obtain ⟨ho, hc⟩ := ih (transcript ++
      [ConversationMessage.assistant
        [ContentBlock.tool_use (str "toolu_1") (str "str_replace_editor")
          (EditCommand.view none)],
       ConversationMessage.toolResultMsg (str "toolu_1")
         (executeEditorCommand (EditCommand.view none) content)])
    have hstep :
        runLoop (List.replicate (n + 1) viewAllReply) content transcript =
          { events := StreamEvent.tool_use (str "str_replace_editor") (str "view") ::
              StreamEvent.content_update content ::
              StreamEvent.tool_result true none ::
              (runLoop (List.replicate n viewAllReply) content (transcript ++
                [ConversationMessage.assistant
                  [ContentBlock.tool_use (str "toolu_1") (str "str_replace_editor")
                    (EditCommand.view none)],
                 ConversationMessage.toolResultMsg (str "toolu_1")
                   (executeEditorCommand (EditCommand.view none) content)])).events
            outcome := (runLoop (List.replicate n viewAllReply) content (transcript ++
                [ConversationMessage.assistant
                  [ContentBlock.tool_use (str "toolu_1") (str "str_replace_editor")
                    (EditCommand.view none)],
                 ConversationMessage.toolResultMsg (str "toolu_1")
                   (executeEditorCommand (EditCommand.view none) content)])).outcome
            finalContent := (runLoop (List.replicate n viewAllReply) content (transcript ++
                [ConversationMessage.assistant
                  [ContentBlock.tool_use (str "toolu_1") (str "str_replace_editor")
                    (EditCommand.view none)],
                 ConversationMessage.toolResultMsg (str "toolu_1")
                   (executeEditorCommand (EditCommand.view none) content)])).finalContent
            transcript := (runLoop (List.replicate n viewAllReply) content (transcript ++
                [ConversationMessage.assistant
                  [ContentBlock.tool_use (str "toolu_1") (str "str_replace_editor")
                    (EditCommand.view none)],
                 ConversationMessage.toolResultMsg (str "toolu_1")
                   (executeEditorCommand (EditCommand.view none) content)])).transcript } := by
      rw [List.replicate_succ]
      rfl
    rw [hstep]
    refine ⟨ho, ?_⟩
    simp only [List.countP_cons, isToolUseFrame]
    rw [hc]
    rfl

/-- Claim C3, refuting theorem (code bug).  A successful `view` command
carries its viewed slice in the result `content` field, and the loop
updates on `success && content !== undefined`, so viewing lines 2-3 of
`"a\nb\nc"` emits a `content_update` frame and overwrites the working
buffer with the slice `"b\nc"` — the claim (and the source comment
"Update current content if edit was successful") say a successful View
must leave the buffer unchanged and emit no `content_update`. -/
theorem claim_C3_view_emits_update :
    (runLoop
      [ModelReply.ok (str "tool_use")
        [ContentBlock.tool_use (str "toolu_1") (str "str_replace_editor")
          (EditCommand.view (some (2, 3)))]]
      (str "a\nb\nc") []).events =
      [StreamEvent.tool_use (str "str_replace_editor") (str "view"),
       StreamEvent.content_update (str "b\nc"),
       StreamEvent.tool_result true none] ∧
    (runLoop
      [ModelReply.ok (str "tool_use")
        [ContentBlock.tool_use (str "toolu_1") (str "str_replace_editor")
          (EditCommand.view (some (2, 3)))]]
      (str "a\nb\nc") []).finalContent = str "b\nc" := by decide

lemma getLast?_cons_append_cons {α : Type} (x y : α) (u t : List α) (a : α)
    (h : t.getLast? = some a) : (x :: (u ++ y :: t)).getLast? = some a := by
  have ht : t ≠ [] := by
    intro hnil
    rw [hnil] at h
    simp at h
  rw [show x :: (u ++ y :: t) = (x :: u) ++ (y :: t) from by simp]
  rw [List.getLast?_append_of_ne_nil _ (by simp)]
  rw [show y :: t = [y] ++ t from rfl]
  rw [List.getLast?_append_of_ne_nil _ ht]
  exact h

/-- Claim C8, corrected.  Whenever the loop ends the iteration normally
(final reply) or through a non-ok upstream response (error frame, break),
the outbound stream is terminated by the sentinel frame; a thrown
exception instead reaches the catch handler, which writes an error frame
and aborts the writer without the sentinel (forced by
`claim_C8_counterexample`). -/
theorem claim_C8_sentinel (script : List ModelReply) (content : List Char)
    (transcript : List ConversationMessage)
    (h : (runLoop script content transcript).outcome = RunOutcome.completed ∨
         (runLoop script content transcript).outcome = RunOutcome.upstreamFailed) :
    (runLoop script content transcript).events.getLast? = some StreamEvent.done := by
  induction script generalizing content transcript with
  | nil => simp [runLoop] at h
  | cons reply rest ih =>
    cases reply with
    | throws msg => simp [runLoop] at h
    | httpError errorText => rfl
    | ok stop_reason blocks =>
      by_cases hsr : stop_reason = str "tool_use"
      · subst hsr
        cases hfind : findToolUse blocks with
        | some tu =>
          obtain ⟨id, name, input⟩ := tu
          simp only [runLoop, hfind, if_pos rfl] at h ⊢
          exact getLast?_cons_append_cons _ _ _ _ _ (ih _ _ h)
        | none =>
          simp only [runLoop, hfind, ite_self]
          rw [List.getLast?_append_of_ne_nil _ (by simp)]
          rfl
      · simp only [runLoop, if_neg hsr]
        rw [List.getLast?_append_of_ne_nil _ (by simp)]
        rfl

/-- Witness for C8: a run that completes with a final text reply ends
with the sentinel frame. -/
theorem claim_C8_witness :
    (runLoop [ModelReply.ok (str "end_turn") [ContentBlock.text (str "hi")]]
      [] []).events.getLast? = some StreamEvent.done :=
  claim_C8_sentinel [ModelReply.ok (str "end_turn") [ContentBlock.text (str "hi")]]
    [] [] (Or.inl (by decide))

/-- Claim C8 as stated is false for the exception path: when the upstream
call throws, the catch handler writes one error frame and aborts the
writer, so the outbound stream is not terminated by the sentinel. -/
theorem claim_C8_counterexample :
    (runLoop [ModelReply.throws (str "boom")] [] []).events =
      [StreamEvent.run_error (str "boom")] ∧
    (runLoop [ModelReply.throws (str "boom")] [] []).outcome = RunOutcome.aborted ∧
    (runLoop [ModelReply.throws (str "boom")] [] []).events.getLast? ≠
      some StreamEvent.done := by decide

/-- Claim C9, corrected.  A reply whose stop reason signals a tool call
but which contains no tool_use block falls through to the final-reply
path: the loop streams the non-empty text blocks of the reply, completes
normally with the sentinel, and emits no error event — it does not fail
(forced by `claim_C9_counterexample`). -/
theorem claim_C9_missing_payload (blocks : List ContentBlock) (rest : List ModelReply)
    (content : List Char) (transcript : List ConversationMessage)
    (h : findToolUse blocks = none) :
    runLoop (ModelReply.ok (str "tool_use") blocks :: rest) content transcript =
      { events := textEvents blocks ++ [StreamEvent.done]
        outcome := RunOutcome.completed
        finalContent := content
        transcript := transcript } := by
  simp only [runLoop, h, ite_self]

/-- Witness for C9: a tool_use-stop reply holding only a text block
completes normally, streaming the text and the sentinel. -/
theorem claim_C9_witness :
    runLoop [ModelReply.ok (str "tool_use") [ContentBlock.text (str "ok")]] [] [] =
      { events := [StreamEvent.text (str "ok"), StreamEvent.done]
        outcome := RunOutcome.completed
        finalContent := []
        transcript := [] } :=
  claim_C9_missing_payload [ContentBlock.text (str "ok")] [] [] [] (by decide)

/-- Claim C9 as stated is false: a reply with `stop_reason = 'tool_use'`
and no executable tool payload reaches the `Completed` outcome with no
error event, instead of the claimed terminal protocol error. -/
theorem claim_C9_counterexample :
    (runLoop [ModelReply.ok (str "tool_use") [ContentBlock.text (str "hi")]]
      [] []).outcome = RunOutcome.completed ∧
    (runLoop [ModelReply.ok (str "tool_use") [ContentBlock.text (str "hi")]]
      [] []).events = [StreamEvent.text (str "hi"), StreamEvent.done] := by decide

/-- Claim C7, corrected.  The builder keys on `includes('Current content:')`
plus an exact two-way split on `"\n\nInstruction: "`, not on the exact
two-part shape: for a message of the shape with exactly one occurrence of
the instruction separator, it produces the cacheable segment
`"Current content:\n" ++ X` and the uncacheable segment
`"\n\nInstruction: " ++ Y`, whose concatenation is the original message;
a message with no `"Current content:"` substring, or whose separator
split does not have exactly two parts, passes through unchanged.  (The
claim as stated is refuted by `claim_C7_counterexample`: a message that
merely contains the marker somewhere is transformed, not passed
through.) -/
theorem claim_C7_cache_segmentation (msg X Y : List Char) :
    (substringCount instrMarker (ccMarkerNL ++ X ++ instrMarker ++ Y) = 1 →
      normalizeFirstUserMessage (ccMarkerNL ++ X ++ instrMarker ++ Y) =
        ConversationMessage.userSegments
          [ { text := ccMarkerNL ++ X, cacheable := true },
            { text := instrMarker ++ Y, cacheable := false } ] ∧
      (ccMarkerNL ++ X) ++ (instrMarker ++ Y) = ccMarkerNL ++ X ++ instrMarker ++ Y) ∧
    (containsSub ccMarker msg = false →
      normalizeFirstUserMessage msg = ConversationMessage.userPlain msg) ∧
    ((splitOnSub instrMarker msg).length ≠ 2 →
      normalizeFirstUserMessage msg = ConversationMessage.userPlain msg) := by
  refine ⟨?_, ?_, ?_⟩
  · intro hone
    have hM : ccMarkerNL ++ X ++ instrMarker ++ Y =
        (ccMarkerNL ++ X) ++ instrMarker ++ Y := by simp
    have hcontains : containsSub ccMarker (ccMarkerNL ++ X ++ instrMarker ++ Y) = true := by
      apply (containsSub_iff _ _).mpr
      refine ⟨[], str "\n" ++ X ++ instrMarker ++ Y, ?_⟩
      have hcc : ccMarkerNL = ccMarker ++ str "\n" := by decide
      simp [hcc]
    have hsplit : splitOnSub instrMarker (ccMarkerNL ++ X ++ instrMarker ++ Y) =
        [ccMarkerNL ++ X, Y] := by
      have hstep := @splitGo_single_sep instrMarker (by decide)
        (ccMarkerNL ++ X) ((ccMarkerNL ++ X ++ instrMarker ++ Y).length) Y
        (by rw [← hM]; exact hone) (by rw [← hM])
      rw [splitOnSub, hM]
      rw [hM] at hstep
      exact hstep
    have hreplace : jsReplace (ccMarkerNL ++ X) ccMarkerNL [] = X := by
      rw [jsReplace, findFirst_of_leadsWith (by decide) (leadsWith_append ccMarkerNL X)]
      rw [drop_append_len]
      rfl
    constructor
    · rw [normalizeFirstUserMessage, if_pos hcontains, hsplit]
      dsimp only
      rw [hreplace]
    · simp [List.append_assoc]
  · intro hno
    rw [normalizeFirstUserMessage, if_neg (by simp [hno])]
  · intro hlen
    rw [normalizeFirstUserMessage]
    by_cases hc : containsSub ccMarker msg = true
    · rw [if_pos hc]
      cases hparts : splitOnSub instrMarker msg with
      | nil => rfl
      | cons p0 t =>
        cases t with
        | nil => rfl
        | cons p1 t2 =>
          cases t2 with
          | nil =>
            exfalso
            apply hlen
            rw [hparts]
            rfl
          | cons p2 t3 => rfl
    · rw [if_neg hc]

/-- Witness for C7: the canonical two-part message is split into the
cacheable content segment and the uncacheable instruction segment, and a
plain message without the marker passes through unchanged. -/
theorem claim_C7_witness :
    normalizeFirstUserMessage (str "Current content:\nDATA\n\nInstruction: EDIT") =
      ConversationMessage.userSegments
        [ { text := str "Current content:\nDATA", cacheable := true },
          { text := str "\n\nInstruction: EDIT", cacheable := false } ] ∧
    normalizeFirstUserMessage (str "hello") = ConversationMessage.userPlain (str "hello") :=
  ⟨((claim_C7_cache_segmentation [] (str "DATA") (str "EDIT")).1 (by decide)).1,
   (claim_C7_cache_segmentation (str "hello") [] []).2.1 (by decide)⟩

/-- Claim C7 as stated is false: the message
`"Z Current content:\nA\n\nInstruction: B"` is not of the exact two-part
shape (it does not start with `"Current content:\n"`), yet the builder
does not pass it through — it contains the marker, so the builder
rebuilds it into two segments whose concatenation
(`"Current content:\nZ A\n\nInstruction: B"`) differs from the original
message. -/
theorem claim_C7_counterexample :
    hasCurrentContentShape (str "Z Current content:\nA\n\nInstruction: B") = false ∧
    normalizeFirstUserMessage (str "Z Current content:\nA\n\nInstruction: B") =
      ConversationMessage.userSegments
        [ { text := str "Current content:\nZ A", cacheable := true },
          { text := str "\n\nInstruction: B", cacheable := false } ] ∧
    normalizeFirstUserMessage (str "Z Current content:\nA\n\nInstruction: B") ≠
      ConversationMessage.userPlain (str "Z Current content:\nA\n\nInstruction: B") := by
  decide
